import Mathlib

/-!
Shallow embedding of the ETL pipeline in `src/app.py` (repository
`amitca71/python_etl`) and proofs about it.

The embedded fragment is the transformation/join engine:

* `rename` (app.py lines 127-128): `df.rename(columns=parameters)`;
* `set_types` (app.py lines 130-137): per-column `pd.to_numeric` coercion
  with `dropna`, or `astype` cast;
* `ETL.run` (app.py lines 104-118): the per-table transformation loop that
  resolves each configured transformation name with Python `eval`, the join
  loop that reassigns `merged` on each configured join, and the final
  destination write of `merged`.

Tables are modelled as a column-name list plus a row list; cell values are
integers, strings or the missing value NA (pandas NaN).  Fallible Python
code (KeyError on a dict/column lookup, NameError from `eval` on an unbound
name, UnboundLocalError when `merged` was never assigned, ValueError on an
unknown join kind or a failed `astype` conversion) is modelled with
`Except Err`.  A successful
`runPipeline` result is exactly the table handed to
`self.destination.write_data`; every `Except.error` outcome aborts the run
before any destination write.
-/

set_option autoImplicit false

namespace PythonETL

/-- A cell value of a table: an integer, a string, or the missing value NA
(pandas NaN).  Numeric values are modelled as integers, which covers every
numeric cell exercised by the specification's scenarios. -/
inductive Value where
  | na : Value
  | int (i : Int) : Value
  | str (s : String) : Value
deriving DecidableEq, Repr

/-- Whether a value is the missing value (pandas `isna`). -/
def Value.isNA : Value → Bool
  | .na => true
  | _ => false

/-- Digit accumulator for integer-literal parsing: consumes decimal
digits, returns `none` on any non-digit character. -/
def parseNatAux : List Char → Nat → Option Nat
  | [], acc => some acc
  | c :: cs, acc =>
    if c.isDigit then parseNatAux cs (acc * 10 + (c.toNat - 48)) else none

/-- Integer-literal parser: an optional minus sign followed by one or more
decimal digits. -/
def parseIntLit (s : String) : Option Int :=
  match s.data with
  | [] => none
  | '-' :: c :: cs => (parseNatAux (c :: cs) 0).map (fun n => -(n : Int))
  | cs => (parseNatAux cs 0).map (fun n => (n : Int))

/-- Model of `pd.to_numeric(·, errors='coerce')` on one cell: numbers stay
numbers, NA stays NA, a string parses when it is an integer literal and
coerces to NA otherwise (the fractional and exponent forms pandas also
accepts are not exercised by any claim). -/
def toNumericVal : Value → Value
  | .na => .na
  | .int i => .int i
  | .str s =>
    match parseIntLit s with
    | some i => .int i
    | none => .na

/-- String rendering of a cell, used by the `astype` model for target type
"str". -/
def valString : Value → String
  | .na => "nan"
  | .int i => toString i
  | .str s => s

/-- Model of `Series.astype(ty)` on one cell, for the dtype tags with
unambiguous semantics in the value model: "str" always succeeds and
renders the value; the integer dtypes succeed exactly on integers and
integer-literal strings and fail (pandas raises ValueError) on NA and
other strings.  Every other dtype tag — e.g. the float kinds, whose
results the value model cannot represent — is modelled as failing, so the
embedding never reports success for a cast whose pandas outcome it cannot
track; theorems about `set_types` are therefore stated conditional on
success. -/
def astypeCell (ty : String) (v : Value) : Option Value :=
  if ty = "str" then some (.str (valString v))
  else if ty = "int" || ty = "int8" || ty = "int16" || ty = "int32" || ty = "int64" then
    match v with
    | .int i => some (.int i)
    | .na => none
    | .str s => (parseIntLit s).map Value.int
  else none

/-- A pandas DataFrame: an ordered list of column names and a list of rows,
each row listing its cells in column order. -/
structure Table where
  cols : List String
  rows : List (List Value)
deriving DecidableEq, Repr

/-- Cell of row `r` at column position `i`; out-of-range reads give NA. -/
def rowGet (r : List Value) (i : Nat) : Value := r.getD i .na

/-- Position of column `k` in a column-name list (first occurrence), `none`
when the column is absent. -/
def colIdx : List String → String → Option Nat
  | [], _ => none
  | c :: rest, k => if c = k then some 0 else (colIdx rest k).map (· + 1)

/-- Replace the cell at position `i` of every row by `f` of that cell
(the effect of `df[k] = f(df[k])`). -/
def mapColAt (df : Table) (i : Nat) (f : Value → Value) : Table :=
  { cols := df.cols, rows := df.rows.map (fun r => r.set i (f (rowGet r i))) }

/-- Drop the rows whose cell at position `i` is NA
(`df.dropna(subset=[k])`). -/
def dropnaAt (df : Table) (i : Nat) : Table :=
  { cols := df.cols, rows := df.rows.filter (fun r => !(rowGet r i).isNA) }

/-- Cast every row's cell at position `i` with `astypeCell`; `none` as
soon as one cell fails (pandas `astype` converts the whole column or
raises). -/
def castColumn (ty : String) (i : Nat) : List (List Value) → Option (List (List Value))
  | [] => some []
  | r :: rs =>
    match astypeCell ty (rowGet r i) with
    | none => none
    | some v => (castColumn ty i rs).map (fun rs2 => r.set i v :: rs2)

/-- Transformation parameters: the configured JSON mapping, as an ordered
association list of key/value string pairs (Python dict keys are unique and
iterate in insertion order). -/
abbrev Params := List (String × String)

/-- First value bound to key `c` in a parameter mapping. -/
def lookupP : List (String × String) → String → Option String
  | [], _ => none
  | (k, v) :: rest, c => if k = c then some v else lookupP rest c

/-- Python error outcomes of the embedded code, plus the error taxonomy
named by the specification (the latter four constructors are never produced
by the embedded code; they exist so that claims stated in the
specification's vocabulary can be expressed and compared). -/
inductive Err where
  | nameError (n : String) : Err
  | keyError (k : String) : Err
  | unboundLocal (v : String) : Err
  | valueError (m : String) : Err
  | unknownTransformationError : Err
  | tableNotFoundError : Err
  | noJoinConfiguredError : Err
  | columnNotFoundError : Err
deriving DecidableEq, Repr

/-- app.py lines 127-128: `rename(df, parameters)` returns
`df.rename(columns=parameters)`.  pandas `rename` with the default
`errors='ignore'` maps each column name through the mapping and silently
leaves names that are not keys of the mapping (and keys absent from the
table) alone; rows are untouched and no error is ever raised. -/
def rename (df : Table) (parameters : Params) : Table :=
  { cols := df.cols.map (fun c => (lookupP parameters c).getD c), rows := df.rows }

/-- One iteration of the loop body of `set_types` (app.py lines 131-136)
for key `k` bound to target type `ty`: reading `df[k]` on an absent column
raises KeyError; for "to_numeric" the column is coerced with
`pd.to_numeric(·, errors='coerce')` and then rows with NA in that column
are dropped; any other target type casts the column with `astype`, which
raises (modelled as ValueError) when any cell fails to convert. -/
def setTypesStep (df : Table) (k ty : String) : Except Err Table :=
  match colIdx df.cols k with
  | none => .error (.keyError k)
  | some i =>
    if ty = "to_numeric" then
      .ok (dropnaAt (mapColAt df i toNumericVal) i)
    else
      match castColumn ty i df.rows with
      | none => .error (.valueError ty)
      | some rows2 => .ok ⟨df.cols, rows2⟩

/-- app.py lines 130-137: `set_types(df, parameters)` runs the loop body
over the parameter mapping in its iteration order, each iteration seeing
the DataFrame produced by the previous one; the first raised error
aborts. -/
def set_types : Table → Params → Except Err Table
  | df, [] => .ok df
  | df, p :: rest =>
    match setTypesStep df p.1 p.2 with
    | .error e => .error e
    | .ok df1 => set_types df1 rest

/-- Fresh all-NA left part of a right-table-only output row: NA in every
left column except the join key position `li`, which carries the right
row's key value. -/
def naLeftPart (lcolsLen li : Nat) (key : Value) : List Value :=
  (List.range lcolsLen).map (fun j => if j = li then key else Value.na)

/-- Join-key match: pandas merge matches two key cells when they are equal
and neither is NA (NaN never matches NaN). -/
def keyMatch (a b : Value) : Bool := !a.isNA && !b.isNA && decide (a = b)

/-- app.py line 117: `l.merge(r, on=on, how=how)` for a single join column
`on`, modelled for tables whose only shared column name is `on` (no claim
exercises pandas' `_x`/`_y` suffixing of other shared names).  The output
columns are the left columns followed by the right columns minus the key;
"inner" emits, for each left row in order, its concatenation with every
key-matching right row; "left" additionally emits an NA-filled row for a
matchless left row; "right" is the mirror image; "outer" emits the "left"
rows followed by the matchless right rows.  An absent key column raises
KeyError, an unknown join kind ValueError. -/
def merge (l r : Table) («on» how : String) : Except Err Table :=
  match colIdx l.cols «on», colIdx r.cols «on» with
  | some li, some ri =>
    let rcols := r.cols.eraseIdx ri
    let matchR := fun (lr : List Value) =>
      (r.rows.filter (fun rr => keyMatch (rowGet lr li) (rowGet rr ri))).map
        (fun rr => lr ++ rr.eraseIdx ri)
    let leftRow := fun (lr : List Value) =>
      let ms := matchR lr
      if ms.isEmpty then [lr ++ rcols.map (fun _ => Value.na)] else ms
    let rightRow := fun (rr : List Value) =>
      let ms := (l.rows.filter (fun lr => keyMatch (rowGet lr li) (rowGet rr ri))).map
        (fun lr => lr ++ rr.eraseIdx ri)
      if ms.isEmpty then [naLeftPart l.cols.length li (rowGet rr ri) ++ rr.eraseIdx ri] else ms
    let rightUnmatched :=
      (r.rows.filter (fun rr => l.rows.all (fun lr => !keyMatch (rowGet lr li) (rowGet rr ri)))).map
        (fun rr => naLeftPart l.cols.length li (rowGet rr ri) ++ rr.eraseIdx ri)
    if how = "inner" then .ok ⟨l.cols ++ rcols, (l.rows.map matchR).flatten⟩
    else if how = "left" then .ok ⟨l.cols ++ rcols, (l.rows.map leftRow).flatten⟩
    else if how = "right" then .ok ⟨l.cols ++ rcols, (r.rows.map rightRow).flatten⟩
    else if how = "outer" then
      .ok ⟨l.cols ++ rcols, (l.rows.map leftRow).flatten ++ rightUnmatched⟩
    else .error (.valueError how)
  | none, _ => .error (.keyError «on»)
  | _, none => .error (.keyError «on»)

/-- One configured transformation step: `{"name": ..., "parameters": ...}`
from the configuration's `transformations.tables[i].transformations`
list. -/
structure TransformationStep where
  name : String
  parameters : Params

/-- One entry of the configuration's `transformations.tables` list. -/
structure TableTransformationSpec where
  table_name : String
  transformations : List TransformationStep

/-- One entry of the configuration's `transformations.join` list.  The
claims exercise a single join column, so `on` is one column name. -/
structure JoinSpec where
  source_1 : String
  source_2 : String
  «on» : String
  how : String

/-- The transformation section of the configuration consumed by
`ETL.run`. -/
structure PipelineConfig where
  tables : List TableTransformationSpec
  joins : List JoinSpec

/-- The mutable `source_data_dct` dict of `ETL.run`: an ordered
name-to-table association list with unique keys. -/
abbrev TableSet := List (String × Table)

/-- Dict read `source_data_dct[k]`. -/
def lookupTS : TableSet → String → Option Table
  | [], _ => none
  | (k, t) :: rest, n => if k = n then some t else lookupTS rest n

/-- Dict assignment `source_data_dct[k] = v`: replaces the binding in
place when the key exists, appends it otherwise. -/
def updateTS : TableSet → String → Table → TableSet
  | [], n, v => [(n, v)]
  | (k, t) :: rest, n, v => if k = n then (n, v) :: rest else (k, t) :: updateTS rest n v

/-- Model of app.py line 114's `eval(tr["name"])`: the configured name is
resolved dynamically against the module's global bindings, whose
table-transformation functions are exactly `rename` and `set_types`; any
other configured string is an unbound name and `eval` raises NameError
(resolving a non-function module global such as `pd` would fail at the
call instead — no claim exercises that case). -/
def evalGlobal (name : String) : Option (Table → Params → Except Err Table) :=
  if name = "rename" then some (fun df ps => .ok (rename df ps))
  else if name = "set_types" then some set_types
  else none

/-- app.py line 114 for one step `tr` of table `table_name`:
`source_data_dct[table_name] = eval(tr["name"])(source_data_dct[table_name], tr["parameters"])`.
Python evaluates `eval(tr["name"])` first (NameError on an unbound name),
then the argument `source_data_dct[table_name]` (KeyError on an absent
table), then the call, then the dict assignment. -/
def runStep (ts : TableSet) (table_name : String) (tr : TransformationStep) :
    Except Err TableSet :=
  match evalGlobal tr.name with
  | none => .error (.nameError tr.name)
  | some f =>
    match lookupTS ts table_name with
    | none => .error (.keyError table_name)
    | some df => (f df tr.parameters).map (updateTS ts table_name)

/-- app.py lines 113-114: the inner loop over one table's configured
transformation steps; the first raised error aborts the run. -/
def runSteps (table_name : String) : TableSet → List TransformationStep → Except Err TableSet
  | ts, [] => .ok ts
  | ts, tr :: rest =>
    match runStep ts table_name tr with
    | .error e => .error e
    | .ok ts1 => runSteps table_name ts1 rest

/-- The transformation loop body for one `transformations.tables` entry
(app.py lines 111-114). -/
def runSpec (ts : TableSet) (spec : TableTransformationSpec) : Except Err TableSet :=
  runSteps spec.table_name ts spec.transformations

/-- app.py lines 110-114: the outer loop over the configured
`transformations.tables` entries. -/
def runTransformations : TableSet → List TableTransformationSpec → Except Err TableSet
  | ts, [] => .ok ts
  | ts, spec :: rest =>
    match runSpec ts spec with
    | .error e => .error e
    | .ok ts1 => runTransformations ts1 rest

/-- app.py lines 116-117 for one join spec: resolve `source_1` in the dict
(KeyError if absent), then `source_2` (KeyError if absent), then merge. -/
def execJoin (ts : TableSet) (j : JoinSpec) : Except Err Table :=
  match lookupTS ts j.source_1 with
  | none => .error (.keyError j.source_1)
  | some t1 =>
    match lookupTS ts j.source_2 with
    | none => .error (.keyError j.source_2)
    | some t2 => merge t1 t2 j.«on» j.how

/-- app.py lines 116-117: the join loop.  Each iteration reassigns the
local `merged`, ignoring its previous value; the accumulator is `none`
while `merged` is still unassigned. -/
def runJoins (ts : TableSet) : List JoinSpec → Option Table → Except Err (Option Table)
  | [], acc => .ok acc
  | j :: rest, _ =>
    match execJoin ts j with
    | .error e => .error e
    | .ok m => runJoins ts rest (some m)

/-- app.py lines 104-118 after source loading (`ETL.run` from the
transformation loop on): run the per-table transformations, run the join
loop, then read `merged` for the destination write — UnboundLocalError
when the join loop never assigned it.  An `Except.ok` result is exactly
the table passed to `self.destination.write_data`; every error aborts the
run before any destination write. -/
def runPipeline (cfg : PipelineConfig) (ts : TableSet) : Except Err Table :=
  match runTransformations ts cfg.tables with
  | .error e => .error e
  | .ok ts2 =>
    match runJoins ts2 cfg.joins none with
    | .error e => .error e
    | .ok none => .error (.unboundLocal "merged")
    | .ok (some t) => .ok t

/-- Per-cell effect of one succeeding `set_types` entry with target type
`ty`: numeric coercion for "to_numeric", the `astype` cast otherwise (on
the success path the cast returned a value, so the `getD` default is
never reached). -/
def stepFn (ty : String) (v : Value) : Value :=
  if ty = "to_numeric" then toNumericVal v else (astypeCell ty v).getD v

/-- Whether a row survives every numeric-coercion drop of a `set_types`
parameter mapping: for each entry `(k, "to_numeric")`, the row's cell in
column `k` must parse to a number (its coercion is not NA). -/
def keepRow (cols : List String) (ps : Params) (r : List Value) : Bool :=
  ps.all (fun p =>
    match colIdx cols p.1 with
    | none => true
    | some i => p.2 != "to_numeric" || !(toNumericVal (rowGet r i)).isNA)

/-- Cumulative per-row value effect of a `set_types` parameter mapping:
each entry rewrites its column's cell by `stepFn`. -/
def applyPs (cols : List String) (ps : Params) (r : List Value) : List Value :=
  ps.foldl (fun r p =>
    match colIdx cols p.1 with
    | none => r
    | some i => r.set i (stepFn p.2 (rowGet r i))) r

/-- Inverse of a rename mapping: every pair flipped. -/
def invMap (m : Params) : Params := m.map (fun p => (p.2, p.1))

/-- Table A of the specification's join-correctness scenario. -/
def tableA : Table := ⟨["id", "v"], [[.int 1, .str "a"], [.int 2, .str "b"]]⟩

/-- Table B of the specification's join-correctness scenario. -/
def tableB : Table := ⟨["id", "w"], [[.int 2, .str "x"], [.int 3, .str "y"]]⟩

/-- A table whose column "a" mixes numeric-parsable and non-parsable
strings, for exercising `set_types` numeric coercion. -/
def tableMixed : Table :=
  ⟨["a", "b"], [[.str "1", .str "p"], [.str "zz", .str "q"], [.str "3", .str "r"]]⟩

/-- A configuration whose only transformation step names an unbound
transformation. -/
def cfgUnknownName : PipelineConfig := ⟨[⟨"t", [⟨"frobnicate", []⟩]⟩], []⟩

/-! ### Lemmas about column indices and row access -/

theorem colIdx_lt {C : List String} {k : String} {i : Nat} (h : colIdx C k = some i) :
    i < C.length := by
  induction C generalizing i with
  | nil => simp [colIdx] at h
  | cons c rest ih =>
    by_cases hc : c = k
    · simp [colIdx, hc] at h
      subst h
      simp
    · simp only [colIdx, hc, if_neg, ite_false] at h
      cases hrec : colIdx rest k with
      | none => rw [hrec] at h; simp at h
      | some j =>
        rw [hrec] at h
        simp at h
        have := ih hrec
        simp [List.length_cons]
        omega

theorem colIdx_getD {C : List String} {k : String} {i : Nat} (h : colIdx C k = some i) :
    C.getD i "" = k := by
  induction C generalizing i with
  | nil => simp [colIdx] at h
  | cons c rest ih =>
    by_cases hc : c = k
    · simp [colIdx, hc] at h
      subst h
      simpa using hc
    · simp only [colIdx, hc, if_neg, ite_false] at h
      cases hrec : colIdx rest k with
      | none => rw [hrec] at h; simp at h
      | some j =>
        rw [hrec] at h
        simp at h
        subst h
        simpa using ih hrec

theorem colIdx_of_mem {C : List String} {k : String} (h : k ∈ C) :
    ∃ i, colIdx C k = some i := by
  induction C with
  | nil => simp at h
  | cons c rest ih =>
    by_cases hc : c = k
    · exact ⟨0, by simp [colIdx, hc]⟩
    · have hk : k ∈ rest := by
        rcases List.mem_cons.mp h with h1 | h1
        · exact absurd h1.symm hc
        · exact h1
      obtain ⟨j, hj⟩ := ih hk
      exact ⟨j + 1, by simp [colIdx, hc, hj]⟩

theorem mem_of_colIdx {C : List String} {k : String} {i : Nat} (h : colIdx C k = some i) :
    k ∈ C := by
  have h1 := colIdx_getD h
  have h2 := colIdx_lt h
  rw [List.getD_eq_getElem _ _ h2] at h1
  rw [← h1]
  exact List.getElem_mem h2

theorem rowGet_set_self {r : List Value} {i : Nat} (v : Value) (h : i < r.length) :
    rowGet (r.set i v) i = v := by
  simp [rowGet, List.getD_eq_getElem?_getD, List.getElem?_set_eq_of_lt v h]

theorem rowGet_set_ne {r : List Value} {i j : Nat} (v : Value) (h : i ≠ j) :
    rowGet (r.set i v) j = rowGet r j := by
  simp [rowGet, List.getD_eq_getElem?_getD, List.getElem?_set_ne h]

/-! ### Lemmas about the pipeline loops -/

theorem runSteps_append_ok {n : String} {ts ts1 : TableSet} {l : List TransformationStep}
    (h : runSteps n ts l = .ok ts1) (l2 : List TransformationStep) :
    runSteps n ts (l ++ l2) = runSteps n ts1 l2 := by
  induction l generalizing ts with
  | nil =>
    simp only [runSteps] at h
    cases h
    rfl
  | cons tr rest ih =>
    simp only [runSteps] at h ⊢
    cases hstep : runStep ts n tr with
    | error e => rw [hstep] at h; cases h
    | ok ts2 => rw [hstep] at h; exact ih h

theorem runTransformations_append_ok {ts ts1 : TableSet} {l : List TableTransformationSpec}
    (h : runTransformations ts l = .ok ts1) (l2 : List TableTransformationSpec) :
    runTransformations ts (l ++ l2) = runTransformations ts1 l2 := by
  induction l generalizing ts with
  | nil =>
    simp only [runTransformations] at h
    cases h
    rfl
  | cons spec rest ih =>
    simp only [runTransformations] at h ⊢
    cases hspec : runSpec ts spec with
    | error e => rw [hspec] at h; cases h
    | ok ts2 => rw [hspec] at h; exact ih h

theorem runJoins_append_ok {ts : TableSet} {l : List JoinSpec} {acc acc1 : Option Table}
    (h : runJoins ts l acc = .ok acc1) (l2 : List JoinSpec) :
    runJoins ts (l ++ l2) acc = runJoins ts l2 acc1 := by
  induction l generalizing acc with
  | nil =>
    simp only [runJoins] at h
    cases h
    rfl
  | cons j rest ih =>
    simp only [runJoins] at h ⊢
    cases hj : execJoin ts j with
    | error e => rw [hj] at h; cases h
    | ok m => rw [hj] at h; exact ih h

theorem runJoins_last {ts : TableSet} {js : List JoinSpec} {acc : Option Table} {out : Table}
    (h : runJoins ts js acc = .ok (some out)) (hne : js ≠ []) :
    execJoin ts (js.getLast hne) = .ok out := by
  induction js generalizing acc with
  | nil => exact absurd rfl hne
  | cons j rest ih =>
    simp only [runJoins] at h
    cases hj : execJoin ts j with
    | error e => rw [hj] at h; cases h
    | ok m =>
      rw [hj] at h
      cases rest with
      | nil =>
        simp only [runJoins] at h
        cases h
        simpa [List.getLast] using hj
      | cons j2 rest2 =>
        rw [List.getLast_cons (by simp)]
        exact ih h (by simp)

theorem runPipeline_ok_inv {cfg : PipelineConfig} {ts : TableSet} {out : Table}
    (h : runPipeline cfg ts = .ok out) :
    ∃ ts2, runTransformations ts cfg.tables = .ok ts2 ∧
      runJoins ts2 cfg.joins none = .ok (some out) := by
  unfold runPipeline at h
  split at h
  · cases h
  · rename_i ts2 h1
    split at h
    · cases h
    · cases h
    · rename_i t h2
      cases h
      exact ⟨ts2, h1, h2⟩

/-! ### Claim theorems -/

/-- C1 counterexample: a configured step named "frobnicate" (no such
binding exists) makes the pipeline fail with Python NameError raised by
`eval`, not with the specification's UnknownTransformationError, so the
claim that name resolution is a static closed lookup failing with
UnknownTransformationError is false of the code. -/
theorem c1_counterexample :
    runPipeline cfgUnknownName [("t", tableA)] = .error (.nameError "frobnicate") ∧
    runPipeline cfgUnknownName [("t", tableA)] ≠ .error .unknownTransformationError := by
  refine ⟨rfl, ?_⟩
  intro h
  rw [show runPipeline cfgUnknownName [("t", tableA)] = .error (.nameError "frobnicate")
      from rfl] at h
  simp at h

/-- C1 (amended): transformation names are resolved by dynamic evaluation
of the configured string against the module's global bindings; for every
configured TransformationStep whose name is unbound, once the steps before
it have succeeded the pipeline fails with NameError, and it halts before
any destination write occurs. -/
theorem c1_unbound_name_nameerror_halts (cfg : PipelineConfig) (ts ts2 ts3 : TableSet)
    (pre rest : List TableTransformationSpec) (spec : TableTransformationSpec)
    (trsPre trsRest : List TransformationStep) (tr : TransformationStep)
    (htab : cfg.tables = pre ++ spec :: rest)
    (hspec : spec.transformations = trsPre ++ tr :: trsRest)
    (hname : evalGlobal tr.name = none)
    (hpre : runTransformations ts pre = .ok ts2)
    (hsteps : runSteps spec.table_name ts2 trsPre = .ok ts3) :
    runPipeline cfg ts = .error (.nameError tr.name) ∧
    ∀ out : Table, runPipeline cfg ts ≠ .ok out := by
  have hrs : runSpec ts2 spec = .error (.nameError tr.name) := by
    unfold runSpec
    rw [hspec, runSteps_append_ok hsteps]
    simp only [runSteps]
    unfold runStep
    rw [hname]
  have htrans : runTransformations ts cfg.tables = .error (.nameError tr.name) := by
    rw [htab, runTransformations_append_ok hpre]
    simp only [runTransformations]
    rw [hrs]
  refine ⟨?_, ?_⟩
  · unfold runPipeline
    rw [htrans]
  · intro out hout
    unfold runPipeline at hout
    rw [htrans] at hout
    cases hout

/-- C1 witness: the amended theorem applied to the concrete unknown-name
configuration. -/
theorem c1_witness :
    runPipeline cfgUnknownName [("t", tableA)] = .error (.nameError "frobnicate") ∧
    ∀ out : Table, runPipeline cfgUnknownName [("t", tableA)] ≠ .ok out :=
  c1_unbound_name_nameerror_halts cfgUnknownName [("t", tableA)] [("t", tableA)]
    [("t", tableA)] [] [] ⟨"t", [⟨"frobnicate", []⟩]⟩ [] [] ⟨"frobnicate", []⟩
    rfl rfl rfl rfl rfl

/-- C2: when the pipeline run succeeds, its final output is exactly the
result of executing the last configured join alone against the transformed
table set — earlier joins' results are discarded (this holds in
particular when two or more joins are configured). -/
theorem c2_only_last_join_retained (cfg : PipelineConfig) (ts ts2 : TableSet) (out : Table)
    (hne : cfg.joins ≠ [])
    (htwo : 2 ≤ cfg.joins.length)
    (htr : runTransformations ts cfg.tables = .ok ts2)
    (hok : runPipeline cfg ts = .ok out) :
    execJoin ts2 (cfg.joins.getLast hne) = .ok out := by
  obtain ⟨ts2b, h1, h2⟩ := runPipeline_ok_inv hok
  rw [htr] at h1
  cases h1
  exact runJoins_last h2 hne

/-- C2 witness: with a left join followed by an inner join of the same two
tables, the pipeline output is exactly the inner (last) join's result. -/
theorem c2_witness :
    execJoin [("A", tableA), ("B", tableB)]
        ((⟨[], [⟨"A", "B", "id", "left"⟩, ⟨"A", "B", "id", "inner"⟩]⟩ :
          PipelineConfig).joins.getLast (List.cons_ne_nil _ _)) =
      .ok ⟨["id", "v", "w"], [[.int 2, .str "b", .str "x"]]⟩ :=
  c2_only_last_join_retained ⟨[], [⟨"A", "B", "id", "left"⟩, ⟨"A", "B", "id", "inner"⟩]⟩
    [("A", tableA), ("B", tableB)] [("A", tableA), ("B", tableB)]
    ⟨["id", "v", "w"], [[.int 2, .str "b", .str "x"]]⟩
    (List.cons_ne_nil _ _) (Nat.le_refl 2) rfl rfl

/-- C3 counterexample: with an empty join-spec list the pipeline fails
with UnboundLocalError on `merged` (the undefined-variable crash), not
with the specification's NoJoinConfiguredError. -/
theorem c3_counterexample :
    runPipeline ⟨[], []⟩ [("t", tableA)] = .error (.unboundLocal "merged") ∧
    runPipeline ⟨[], []⟩ [("t", tableA)] ≠ .error .noJoinConfiguredError := by
  refine ⟨rfl, ?_⟩
  intro h
  rw [show runPipeline ⟨[], []⟩ [("t", tableA)] = .error (.unboundLocal "merged")
      from rfl] at h
  simp at h

/-- C3 (amended): for every PipelineConfig whose join-spec list is empty,
once the per-table transformations succeed the pipeline fails with the
undefined-variable error UnboundLocalError on `merged`, not with a defined
NoJoinConfiguredError. -/
theorem c3_empty_joins_unbound_local (cfg : PipelineConfig) (ts ts2 : TableSet)
    (hj : cfg.joins = [])
    (htr : runTransformations ts cfg.tables = .ok ts2) :
    runPipeline cfg ts = .error (.unboundLocal "merged") := by
  unfold runPipeline
  rw [htr, hj]
  rfl

/-- C3 witness: the amended theorem applied to the empty configuration. -/
theorem c3_witness :
    runPipeline ⟨[], []⟩ [] = .error (.unboundLocal "merged") :=
  c3_empty_joins_unbound_local ⟨[], []⟩ [] [] rfl rfl

/-- C7: on the specification's concrete tables A and B, an inner join on
"id" yields exactly the single row (2, "b", "x"), a left join yields two
rows with NA for w on the id=1 row, and an outer join yields exactly three
rows. -/
theorem c7_join_correctness :
    merge tableA tableB "id" "inner" =
      .ok ⟨["id", "v", "w"], [[.int 2, .str "b", .str "x"]]⟩ ∧
    merge tableA tableB "id" "left" =
      .ok ⟨["id", "v", "w"], [[.int 1, .str "a", .na], [.int 2, .str "b", .str "x"]]⟩ ∧
    (merge tableA tableB "id" "outer").map (fun t => t.rows.length) = .ok 3 :=
  ⟨rfl, rfl, rfl⟩

/-- C9: executing a TableTransformationSpec whose transformation list is
empty returns the table set unchanged, so in particular the named entry
still equals the input table (identity law). -/
theorem c9_empty_transformation_list_identity (ts : TableSet) (n : String) :
    runSpec ts ⟨n, []⟩ = .ok ts ∧
    (runSpec ts ⟨n, []⟩).map (fun ts1 => lookupTS ts1 n) = .ok (lookupTS ts n) :=
  ⟨rfl, rfl⟩

/-- C4 counterexample: renaming with a mapping whose old name "b" is
absent from the table raises no error of any kind — the table comes back
unchanged and the pipeline step succeeds — so the claim that `rename`
fails with ColumnNotFoundError on an absent old name is false of the
code. -/
theorem c4_counterexample :
    rename ⟨["a"], [[.int 1]]⟩ [("b", "c")] = ⟨["a"], [[.int 1]]⟩ ∧
    runStep [("t", ⟨["a"], [[.int 1]]⟩)] "t" ⟨"rename", [("b", "c")]⟩ =
      .ok [("t", ⟨["a"], [[.int 1]]⟩)] :=
  ⟨rfl, rfl⟩

/-- C4 (amended): `rename` never fails — old names absent from the table
are silently ignored (pandas default `errors='ignore'`); rows are
untouched, each column whose name is a key of the mapping is renamed to
its configured new name and every other column keeps its name, and a
rename step on an existing table always succeeds in the pipeline. -/
theorem c4_rename_ignores_absent_names (df : Table) (ps : Params) :
    (rename df ps).rows = df.rows ∧
    (∀ i, i < df.cols.length →
      (rename df ps).cols.getD i "" =
        (lookupP ps (df.cols.getD i "")).getD (df.cols.getD i "")) ∧
    (∀ ts n, lookupTS ts n = some df →
      runStep ts n ⟨"rename", ps⟩ = .ok (updateTS ts n (rename df ps))) := by
  refine ⟨rfl, ?_, ?_⟩
  · intro i hi
    have h1 : df.cols[i]? = some df.cols[i] := List.getElem?_eq_getElem hi
    simp [rename, List.getD_eq_getElem?_getD, List.getElem?_map, h1,
      List.getD_eq_getElem _ _ hi]
  · intro ts n h
    unfold runStep
    have he : evalGlobal "rename" = some (fun df ps => .ok (rename df ps)) := rfl
    rw [he, h]
    rfl

/-- C4 witness: the amended theorem applied to a one-column table. -/
theorem c4_witness :
    (rename ⟨["a"], [[.int 1]]⟩ [("a", "x")]).cols.getD 0 "" =
      (lookupP [("a", "x")] ((⟨["a"], [[.int 1]]⟩ : Table).cols.getD 0 "")).getD
        ((⟨["a"], [[.int 1]]⟩ : Table).cols.getD 0 "") ∧
    runStep [("t", ⟨["a"], [[.int 1]]⟩)] "t" ⟨"rename", [("a", "x")]⟩ =
      .ok (updateTS [("t", ⟨["a"], [[.int 1]]⟩)] "t"
        (rename ⟨["a"], [[.int 1]]⟩ [("a", "x")])) :=
  ⟨(c4_rename_ignores_absent_names ⟨["a"], [[.int 1]]⟩ [("a", "x")]).2.1 0 (by decide),
   (c4_rename_ignores_absent_names ⟨["a"], [[.int 1]]⟩ [("a", "x")]).2.2
     [("t", ⟨["a"], [[.int 1]]⟩)] "t" rfl⟩

/-- C6 counterexample: a join spec whose source_1 names a table absent
from the table set makes the pipeline fail with Python KeyError from the
dict lookup, not with the specification's TableNotFoundError. -/
theorem c6_counterexample :
    runPipeline ⟨[], [⟨"missing", "t", "a", "inner"⟩]⟩ [("t", tableMixed)] =
      .error (.keyError "missing") ∧
    runPipeline ⟨[], [⟨"missing", "t", "a", "inner"⟩]⟩ [("t", tableMixed)] ≠
      .error .tableNotFoundError := by
  refine ⟨rfl, ?_⟩
  intro h
  rw [show runPipeline ⟨[], [⟨"missing", "t", "a", "inner"⟩]⟩ [("t", tableMixed)] =
      .error (.keyError "missing") from rfl] at h
  simp at h

/-- C6 (amended): for every JoinSpec whose source_1 or source_2 names a
table absent from the table set when the join executes (all earlier joins
having succeeded), the pipeline fails with KeyError on that table name. -/
theorem c6_absent_join_table_keyerror (cfg : PipelineConfig) (ts ts2 : TableSet)
    (pre rest : List JoinSpec) (j : JoinSpec) (acc : Option Table)
    (htr : runTransformations ts cfg.tables = .ok ts2)
    (hj : cfg.joins = pre ++ j :: rest)
    (hpre : runJoins ts2 pre none = .ok acc)
    (hmiss : lookupTS ts2 j.source_1 = none ∨ lookupTS ts2 j.source_2 = none) :
    runPipeline cfg ts = .error (.keyError j.source_1) ∨
    runPipeline cfg ts = .error (.keyError j.source_2) := by
  have hrun : ∀ e, execJoin ts2 j = .error e → runPipeline cfg ts = .error e := by
    intro e he
    have hjoins : runJoins ts2 cfg.joins none = .error e := by
      rw [hj, runJoins_append_ok hpre]
      simp only [runJoins]
      rw [he]
    unfold runPipeline
    rw [htr]
    dsimp only
    rw [hjoins]
  rcases hmiss with h1 | h2
  · left
    apply hrun
    unfold execJoin
    rw [h1]
  · cases hs1 : lookupTS ts2 j.source_1 with
    | none =>
      left
      apply hrun
      unfold execJoin
      rw [hs1]
    | some t1 =>
      right
      apply hrun
      unfold execJoin
      rw [hs1, h2]

/-- C6 witness: the amended theorem applied to a join naming an unloaded
table. -/
theorem c6_witness :
    runPipeline ⟨[], [⟨"missing", "t", "a", "inner"⟩]⟩ [("t", tableMixed)] =
        .error (.keyError "missing") ∨
    runPipeline ⟨[], [⟨"missing", "t", "a", "inner"⟩]⟩ [("t", tableMixed)] =
        .error (.keyError "t") :=
  c6_absent_join_table_keyerror ⟨[], [⟨"missing", "t", "a", "inner"⟩]⟩
    [("t", tableMixed)] [("t", tableMixed)] [] [] ⟨"missing", "t", "a", "inner"⟩
    none rfl rfl rfl (Or.inl rfl)

/-! ### Lemmas about parameter-mapping lookup, for the rename round-trip -/

theorem lookupP_eq_none {m : Params} {c : String} (h : c ∉ m.map Prod.fst) :
    lookupP m c = none := by
  induction m with
  | nil => rfl
  | cons p rest ih =>
    have h1 : p.1 ≠ c := fun he => h (by simp [he])
    have h2 : c ∉ rest.map Prod.fst := fun hm => h (by simp [hm])
    simp [lookupP, h1, ih h2]

theorem lookupP_mem {m : Params} {c v : String} (h : lookupP m c = some v) :
    (c, v) ∈ m := by
  induction m with
  | nil => cases h
  | cons p rest ih =>
    obtain ⟨k, w⟩ := p
    by_cases hc : k = c
    · subst hc
      simp only [lookupP, if_pos rfl] at h
      cases h
      exact List.mem_cons_self _ _
    · simp only [lookupP, hc, ite_false] at h
      exact List.mem_cons_of_mem _ (ih h)

theorem lookupP_of_mem {m : Params} {c v : String}
    (hnd : (m.map Prod.fst).Nodup) (h : (c, v) ∈ m) :
    lookupP m c = some v := by
  induction m with
  | nil => simp at h
  | cons p rest ih =>
    rcases List.mem_cons.mp h with he | hm
    · rw [← he]
      simp [lookupP]
    · have hc : c ∈ rest.map Prod.fst := by
        refine List.mem_map.mpr ⟨(c, v), hm, rfl⟩
      have hne : p.1 ≠ c := by
        intro hp
        exact (List.nodup_cons.mp hnd).1 (hp ▸ hc)
      simp only [lookupP, hne, ite_false]
      exact ih (List.nodup_cons.mp hnd).2 hm

theorem invMap_keys (m : Params) : (invMap m).map Prod.fst = m.map Prod.snd := by
  unfold invMap
  rw [List.map_map]
  exact List.map_congr_left (fun a _ => rfl)

/-- C8: for every table whose column names avoid the mapping's new names,
and every mapping whose new names are pairwise distinct (so that the
inverse mapping exists), renaming and then renaming with the inverse
mapping restores the original table exactly. -/
theorem c8_rename_roundtrip (df : Table) (m : Params)
    (hvals : (m.map Prod.snd).Nodup)
    (hdisj : ∀ c ∈ df.cols, c ∉ m.map Prod.snd) :
    rename (rename df m) (invMap m) = df := by
  cases df with
  | mk cols rows =>
    simp only [rename, List.map_map, Table.mk.injEq, and_true]
    have hpt : ∀ c ∈ cols,
        ((lookupP (invMap m) ((lookupP m c).getD c)).getD ((lookupP m c).getD c)) = c := by
      intro c hc
      cases hl : lookupP m c with
      | none =>
        have : lookupP (invMap m) c = none := by
          apply lookupP_eq_none
          rw [invMap_keys]
          exact hdisj c hc
        simp [this]
      | some v =>
        have hmem : (v, c) ∈ invMap m := by
          refine List.mem_map.mpr ⟨(c, v), lookupP_mem hl, rfl⟩
        have hinv : lookupP (invMap m) v = some c := by
          apply lookupP_of_mem _ hmem
          rw [invMap_keys]
          exact hvals
        simp [hinv]
    calc cols.map (fun c =>
            (lookupP (invMap m) ((lookupP m c).getD c)).getD ((lookupP m c).getD c))
        = cols.map id := List.map_congr_left (fun c hc => hpt c hc)
      _ = cols := List.map_id cols

/-- C8 witness: the round-trip theorem applied to a concrete two-column
table and the mapping a→x. -/
theorem c8_witness :
    rename (rename ⟨["a", "b"], [[.int 1, .int 2]]⟩ [("a", "x")])
      (invMap [("a", "x")]) = ⟨["a", "b"], [[.int 1, .int 2]]⟩ :=
  c8_rename_roundtrip ⟨["a", "b"], [[.int 1, .int 2]]⟩ [("a", "x")]
    (by decide) (by decide)

/-! ### Lemmas about set_types -/

theorem keepRow_cons (C : List String) (p : String × String) (ps : Params)
    (r : List Value) :
    keepRow C (p :: ps) r =
      ((match colIdx C p.1 with
        | none => true
        | some i => p.2 != "to_numeric" || !(toNumericVal (rowGet r i)).isNA) &&
        keepRow C ps r) := rfl

theorem applyPs_cons (C : List String) (p : String × String) (ps : Params)
    (r : List Value) :
    applyPs C (p :: ps) r =
      applyPs C ps
        (match colIdx C p.1 with
          | none => r
          | some i => r.set i (stepFn p.2 (rowGet r i))) := rfl

theorem keepRow_set {C : List String} {ps : Params} {i : Nat} (v : Value)
    (r : List Value) (hni : ∀ q ∈ ps, colIdx C q.1 ≠ some i) :
    keepRow C ps (r.set i v) = keepRow C ps r := by
  induction ps with
  | nil => rfl
  | cons q ps ih =>
    rw [keepRow_cons, keepRow_cons, ih (fun q2 h => hni q2 (List.mem_cons_of_mem q h))]
    congr 1
    cases hcq : colIdx C q.1 with
    | none => rfl
    | some jj =>
      have hji : i ≠ jj := fun he => hni q (List.mem_cons_self q ps) (by rw [he]; exact hcq)
      dsimp only
      rw [rowGet_set_ne v hji]

theorem filter_filter_and {α : Type} (l : List α) (p q : α → Bool) :
    (l.filter p).filter q = l.filter (fun a => p a && q a) := by
  rw [List.filter_filter]
  apply List.filter_congr
  intro a _
  exact Bool.and_comm _ _

theorem castColumn_eq {ty : String} {i : Nat} {rows rows2 : List (List Value)}
    (h : castColumn ty i rows = some rows2) :
    rows2 = rows.map (fun r => r.set i ((astypeCell ty (rowGet r i)).getD (rowGet r i))) := by
  induction rows generalizing rows2 with
  | nil =>
    simp only [castColumn] at h
    cases h
    rfl
  | cons r rs ih =>
    simp only [castColumn] at h
    cases hc : astypeCell ty (rowGet r i) with
    | none => rw [hc] at h; cases h
    | some v =>
      rw [hc] at h
      cases hrec : castColumn ty i rs with
      | none => rw [hrec] at h; cases h
      | some rs2 =>
        rw [hrec] at h
        simp only [Option.map_some] at h
        cases h
        simp only [List.map_cons, hc, Option.getD_some]
        rw [ih hrec]

/-- Characterization of `set_types`: when every parameter key names a
column, the keys are distinct (a Python dict) and the rows are
well-formed, every succeeding run returns the table whose rows are
exactly the input rows that parse in every numerically-coerced column, in
their original order, each rewritten cell-wise by the per-column
effects (numeric coercions and the casts the run performed). -/
theorem set_types_spec (ps : Params) :
    ∀ (df out : Table),
      (∀ p ∈ ps, p.1 ∈ df.cols) →
      (ps.map Prod.fst).Nodup →
      (∀ r ∈ df.rows, r.length = df.cols.length) →
      set_types df ps = .ok out →
      out = ⟨df.cols, (df.rows.filter (keepRow df.cols ps)).map (applyPs df.cols ps)⟩ := by
  induction ps with
  | nil =>
    intro df out _ _ _ h
    simp only [set_types] at h
    cases h
    have h1 : df.rows.filter (keepRow df.cols []) = df.rows := by
      rw [List.filter_congr (fun r _ => rfl : ∀ r ∈ df.rows, keepRow df.cols [] r = true)]
      exact List.filter_true df.rows
    rw [h1]
    have h2 : df.rows.map (applyPs df.cols []) = df.rows := by
      rw [show applyPs df.cols [] = id from rfl]
      exact List.map_id df.rows
    rw [h2]
  | cons p ps ih =>
    intro df out hkeys hnd hlen h
    obtain ⟨i, hci⟩ := colIdx_of_mem (hkeys p (List.mem_cons_self p ps))
    have hilt : i < df.cols.length := colIdx_lt hci
    have hni : ∀ q ∈ ps, colIdx df.cols q.1 ≠ some i := by
      intro q hq he
      have h1 := colIdx_getD he
      have h2 := colIdx_getD hci
      have hpq : p.1 = q.1 := by rw [← h2, h1]
      have hp1 : p.1 ∉ ps.map Prod.fst := (List.nodup_cons.mp hnd).1
      exact hp1 (by rw [hpq]; exact List.mem_map.mpr ⟨q, hq, rfl⟩)
    have hndtail : (ps.map Prod.fst).Nodup := (List.nodup_cons.mp hnd).2
    have hkeystail : ∀ q ∈ ps, q.1 ∈ df.cols :=
      fun q hq => hkeys q (List.mem_cons_of_mem p hq)
    simp only [set_types] at h
    by_cases hty : p.2 = "to_numeric"
    · -- numeric coercion branch
      have hstepfn : stepFn p.2 = toNumericVal := by
        funext v
        show (if p.2 = "to_numeric" then toNumericVal v else (astypeCell p.2 v).getD v) =
          toNumericVal v
        rw [if_pos hty]
      have hstep : setTypesStep df p.1 p.2 =
          .ok (dropnaAt (mapColAt df i toNumericVal) i) := by
        unfold setTypesStep
        rw [hci]
        dsimp only
        rw [if_pos hty]
      rw [hstep] at h
      dsimp only at h
      have hrows1 : (dropnaAt (mapColAt df i toNumericVal) i).rows =
          (df.rows.filter (fun r => !(toNumericVal (rowGet r i)).isNA)).map
            (fun r => r.set i (toNumericVal (rowGet r i))) := by
        show (df.rows.map (fun r => r.set i (toNumericVal (rowGet r i)))).filter
            (fun r => !(rowGet r i).isNA) = _
        rw [List.filter_map]
        congr 1
        apply List.filter_congr
        intro r hr
        show (!(rowGet (r.set i (toNumericVal (rowGet r i))) i).isNA) =
          (!(toNumericVal (rowGet r i)).isNA)
        rw [rowGet_set_self _ (by rw [hlen r hr]; exact hilt)]
      have hlen1 : ∀ r ∈ (dropnaAt (mapColAt df i toNumericVal) i).rows,
          r.length = (dropnaAt (mapColAt df i toNumericVal) i).cols.length := by
        intro r hr
        rw [hrows1] at hr
        obtain ⟨r0, hr0, rfl⟩ := List.mem_map.mp hr
        show (r0.set i (toNumericVal (rowGet r0 i))).length = df.cols.length
        rw [List.length_set]
        exact hlen r0 (List.mem_of_mem_filter hr0)
      have hout := ih (dropnaAt (mapColAt df i toNumericVal) i) out hkeystail hndtail hlen1 h
      rw [hout]
      show (⟨df.cols,
          ((dropnaAt (mapColAt df i toNumericVal) i).rows.filter
            (keepRow df.cols ps)).map (applyPs df.cols ps)⟩ : Table) = _
      have hroweq :
          (((dropnaAt (mapColAt df i toNumericVal) i).rows.filter
              (keepRow df.cols ps)).map (applyPs df.cols ps)) =
          ((df.rows.filter (keepRow df.cols (p :: ps))).map (applyPs df.cols (p :: ps))) := by
        rw [hrows1, List.filter_map, List.map_map]
        have hf1 : (df.rows.filter (fun r => !(toNumericVal (rowGet r i)).isNA)).filter
              (keepRow df.cols ps ∘ (fun r => r.set i (toNumericVal (rowGet r i)))) =
            (df.rows.filter (fun r => !(toNumericVal (rowGet r i)).isNA)).filter
              (keepRow df.cols ps) := by
          apply List.filter_congr
          intro r _
          exact keepRow_set _ r hni
        rw [hf1, filter_filter_and]
        have hf2 : df.rows.filter
              (fun r => !(toNumericVal (rowGet r i)).isNA && keepRow df.cols ps r) =
            df.rows.filter (keepRow df.cols (p :: ps)) := by
          apply List.filter_congr
          intro r _
          rw [keepRow_cons, hci]
          simp [hty]
        rw [hf2]
        apply List.map_congr_left
        intro r _
        show applyPs df.cols ps (r.set i (toNumericVal (rowGet r i))) = _
        rw [applyPs_cons, hci, hstepfn]
      rw [hroweq]
    · -- astype branch
      have hstepfn : stepFn p.2 = fun v => (astypeCell p.2 v).getD v := by
        funext v
        show (if p.2 = "to_numeric" then toNumericVal v else (astypeCell p.2 v).getD v) =
          (astypeCell p.2 v).getD v
        rw [if_neg hty]
      cases hs0 : setTypesStep df p.1 p.2 with
      | error e => rw [hs0] at h; cases h
      | ok df1 =>
        rw [hs0] at h
        dsimp only at h
        unfold setTypesStep at hs0
        rw [hci] at hs0
        dsimp only at hs0
        rw [if_neg hty] at hs0
        cases hcc : castColumn p.2 i df.rows with
        | none => rw [hcc] at hs0; cases hs0
        | some rows2 =>
          rw [hcc] at hs0
          have hdf1 : df1 = ⟨df.cols, rows2⟩ := (Except.ok.inj hs0).symm
          have hrows2 : rows2 = df.rows.map
              (fun r => r.set i ((astypeCell p.2 (rowGet r i)).getD (rowGet r i))) :=
            castColumn_eq hcc
          subst hdf1
          have hlen1 : ∀ r ∈ (⟨df.cols, rows2⟩ : Table).rows,
              r.length = (⟨df.cols, rows2⟩ : Table).cols.length := by
            intro r hr
            show r.length = df.cols.length
            rw [hrows2] at hr
            obtain ⟨r0, hr0, rfl⟩ := List.mem_map.mp hr
            rw [List.length_set]
            exact hlen r0 hr0
          have hout := ih ⟨df.cols, rows2⟩ out hkeystail hndtail hlen1 h
          rw [hout]
          show (⟨df.cols,
              (rows2.filter (keepRow df.cols ps)).map (applyPs df.cols ps)⟩ : Table) = _
          have hroweq :
              ((rows2.filter (keepRow df.cols ps)).map (applyPs df.cols ps)) =
              ((df.rows.filter (keepRow df.cols (p :: ps))).map
                (applyPs df.cols (p :: ps))) := by
            rw [hrows2, List.filter_map, List.map_map]
            have hf1 : df.rows.filter (keepRow df.cols ps ∘
                  (fun r => r.set i ((astypeCell p.2 (rowGet r i)).getD (rowGet r i)))) =
                df.rows.filter (keepRow df.cols ps) := by
              apply List.filter_congr
              intro r _
              exact keepRow_set _ r hni
            rw [hf1]
            have hf2 : df.rows.filter (keepRow df.cols ps) =
                df.rows.filter (keepRow df.cols (p :: ps)) := by
              apply List.filter_congr
              intro r _
              rw [keepRow_cons, hci]
              have hne : (p.2 != "to_numeric") = true := by
                simp [hty]
              rw [hne]
              simp
            rw [hf2]
            apply List.map_congr_left
            intro r _
            show applyPs df.cols ps
                (r.set i ((astypeCell p.2 (rowGet r i)).getD (rowGet r i))) = _
            rw [applyPs_cons, hci, hstepfn]
          rw [hroweq]

theorem set_types_ok_keys {df : Table} {ps : Params} {out : Table}
    (h : set_types df ps = .ok out) : ∀ p ∈ ps, p.1 ∈ df.cols := by
  induction ps generalizing df with
  | nil => intro p hp; simp at hp
  | cons q ps ih =>
    intro p hp
    have h1 : ∃ df1, setTypesStep df q.1 q.2 = .ok df1 ∧ set_types df1 ps = .ok out := by
      simp only [set_types] at h
      cases hs : setTypesStep df q.1 q.2 with
      | error e => rw [hs] at h; cases h
      | ok df1 => rw [hs] at h; exact ⟨df1, rfl, h⟩
    obtain ⟨df1, hs, hrest⟩ := h1
    have hcols : df1.cols = df.cols := by
      unfold setTypesStep at hs
      cases hc : colIdx df.cols q.1 with
      | none => rw [hc] at hs; cases hs
      | some i =>
        rw [hc] at hs
        dsimp only at hs
        by_cases hty : q.2 = "to_numeric"
        · rw [if_pos hty] at hs; cases hs; rfl
        · rw [if_neg hty] at hs
          cases hcc : castColumn q.2 i df.rows with
          | none => rw [hcc] at hs; cases hs
          | some rows2 => rw [hcc] at hs; cases hs; rfl
    have hq1 : q.1 ∈ df.cols := by
      unfold setTypesStep at hs
      cases hc : colIdx df.cols q.1 with
      | none => rw [hc] at hs; cases hs
      | some i => exact mem_of_colIdx hc
    rcases List.mem_cons.mp hp with he | hm
    · rw [he]; exact hq1
    · have h2 := ih hrest p hm
      rw [hcols] at h2
      exact h2

theorem rowGet_applyPs_ne {C : List String} {ps : Params} {j : Nat}
    (hnj : ∀ q ∈ ps, colIdx C q.1 ≠ some j) (r : List Value) :
    rowGet (applyPs C ps r) j = rowGet r j := by
  induction ps generalizing r with
  | nil => rfl
  | cons q ps ih =>
    rw [applyPs_cons]
    cases hcq : colIdx C q.1 with
    | none => exact ih (fun q2 h => hnj q2 (List.mem_cons_of_mem q h)) r
    | some jj =>
      dsimp only
      have hne : jj ≠ j := fun he => hnj q (List.mem_cons_self q ps) (he ▸ hcq)
      rw [ih (fun q2 h => hnj q2 (List.mem_cons_of_mem q h)) _]
      exact rowGet_set_ne _ hne

/-- C10: a successful `set_types` leaves every column name unchanged (in
particular those not named in the parameter mapping), and on the rows
that survive the numeric-coercion drops — a sublist of the input rows, so
relative order is preserved — every column not named as a key of the
mapping keeps its values unchanged. -/
theorem c10_set_types_frame (df : Table) (ps : Params) (out : Table)
    (hnd : (ps.map Prod.fst).Nodup)
    (hlen : ∀ r ∈ df.rows, r.length = df.cols.length)
    (h : set_types df ps = .ok out) :
    out.cols = df.cols ∧
    ∃ kept : List (List Value), List.Sublist kept df.rows ∧
      out.rows.length = kept.length ∧
      ∀ j, j < df.cols.length → df.cols.getD j "" ∉ ps.map Prod.fst →
        out.rows.map (fun r => rowGet r j) = kept.map (fun r => rowGet r j) := by
  have hkeys := set_types_ok_keys h
  have hout := set_types_spec ps df out hkeys hnd hlen h
  subst hout
  refine ⟨rfl, df.rows.filter (keepRow df.cols ps), List.filter_sublist df.rows,
    List.length_map _ _, ?_⟩
  intro j hj hfree
  show ((df.rows.filter (keepRow df.cols ps)).map (applyPs df.cols ps)).map
      (fun r => rowGet r j) = _
  rw [List.map_map]
  apply List.map_congr_left
  intro r _
  show rowGet (applyPs df.cols ps r) j = rowGet r j
  apply rowGet_applyPs_ne
  intro q hq he
  apply hfree
  rw [colIdx_getD he]
  exact List.mem_map.mpr ⟨q, hq, rfl⟩

/-- C10 witness: the frame theorem applied to the mixed-content table;
column "b" is not a key of the mapping and keeps its surviving values. -/
theorem c10_witness :
    (⟨["a", "b"], [[.int 1, .str "p"], [.int 3, .str "r"]]⟩ : Table).cols =
      tableMixed.cols ∧
    ∃ kept : List (List Value), List.Sublist kept tableMixed.rows ∧
      (⟨["a", "b"], [[.int 1, .str "p"], [.int 3, .str "r"]]⟩ : Table).rows.length =
        kept.length ∧
      ∀ j, j < tableMixed.cols.length →
        tableMixed.cols.getD j "" ∉ ([("a", "to_numeric")] : Params).map Prod.fst →
        (⟨["a", "b"], [[.int 1, .str "p"], [.int 3, .str "r"]]⟩ : Table).rows.map
            (fun r => rowGet r j) =
          kept.map (fun r => rowGet r j) :=
  c10_set_types_frame tableMixed [("a", "to_numeric")]
    ⟨["a", "b"], [[.int 1, .str "p"], [.int 3, .str "r"]]⟩
    (by decide) (by decide) (by rfl)

end PythonETL
